import Mathlib

/-!
Verification of the DALI gRPC demonstration client
(`src/client/dali_grpc_client.py`) against its specification.

The client is a linear pipeline: argument parsing, image loading,
optional preprocessing, a batched inference loop, and a final
statistics query.  We build a shallow embedding of the pure data
transformations (`array_from_list`, `load_images`, `preprocess_image`,
the batching iterator) and a trace-based model of `main` over an
abstract environment (filesystem contents, whether the client
connection succeeds, the server's reported statistics).
Python machine-level details are modelled as follows: numpy uint8
buffers become `List Nat`; a Python exception that escapes `main`
terminates the process with exit status 1; `sys.exit()` with no
argument terminates with exit status 0; `argparse` usage errors
terminate with exit status 2.
-/

namespace DaliClient

/-- Python exceptions that the client can raise, at the granularity the
claims need.  `typeError` models `TypeError` (e.g. `os.path.isfile(None)`),
`valueError` models `ValueError` (`max()` of an empty sequence),
`assertionError` models a failed `assert`, `cvError` an OpenCV decode
failure, `networkError` a `tritonclient` inference error. -/
inductive PyError where
  | typeError
  | valueError
  | assertionError
  | cvError
  | networkError
  deriving DecidableEq, Repr

/-- `np.pad(arr, ((0, ml - arr.shape[0])))` on a 1-D array: append
`ml - len` zeros (truncated subtraction, exactly as in Python where the
argument is never negative on the source's call sites). -/
def np_pad (arr : List Nat) (ml : Nat) : List Nat :=
  arr ++ List.replicate (ml - arr.length) 0

/-- Python's built-in `max` over a list: `None`-free fold from the first
element; raises (here: `none`) on the empty list. -/
def list_max : List Nat → Option Nat
  | [] => none
  | x :: xs => some (xs.foldl max x)

/-- The second half of `array_from_list`: pad every row to `max_len`,
`assert` all padded rows have the shape of the first, and stack them
into a 2-D array (a list of rows; `np.stack` of equal-length 1-D rows). -/
def stack_padded (arrays : List (List Nat)) (max_len : Nat) :
    Except PyError (List (List Nat)) :=
  let arrays2 := arrays.map (fun arr => np_pad arr max_len)
  if arrays2.all (fun arr => arr.length == (arrays2.headD []).length)
  then .ok arrays2
  else .error .assertionError

/-- `array_from_list` from `dali_grpc_client.py`: compute the row
lengths (via the index-based `map` of the source), take their maximum
(`max()` raises `ValueError` on an empty list), then pad, assert and
stack (`stack_padded`). -/
def array_from_list (arrays : List (List Nat)) : Except PyError (List (List Nat)) :=
  match list_max ((List.range arrays.length).map
      (fun x => (arrays.getD x []).length)) with
  | none => .error .valueError
  | some max_len => stack_padded arrays max_len

/-- Abstract filesystem: directory listings, the regular-file predicate,
and file contents as byte lists. -/
structure FS where
  listdir : String → List String
  isfile : String → Bool
  read : String → List Nat

/-- `os.path.join` (POSIX form suffices for the model). -/
def os_path_join (d f : String) : String := d ++ "/" ++ f

/-- The path list `load_images` builds: the path itself when it is a
regular file, otherwise the directory entries that are regular files,
in listing order (the source's generator joins then filters). -/
def img_paths (fs : FS) (dp : String) : List String :=
  if fs.isfile dp then [dp]
  else ((fs.listdir dp).filter (fun f => fs.isfile (os_path_join dp f))).map
    (os_path_join dp)

/-- `load_images` from `dali_grpc_client.py`.  The `assert` on
`max_images` runs first; `os.path.isfile(None)` raises `TypeError`
when the caller passes `None` as the path (both `--img` and
`--img_dir` absent); with a positive cap the path list is truncated
with `[:max_images]`; each remaining path is read as bytes
(`load_image`). -/
def load_images (fs : FS) (dir_path : Option String) (max_images : Int) :
    Except PyError (List (List Nat)) :=
  if 0 < max_images ∨ max_images = -1 then
    match dir_path with
    | none => .error .typeError
    | some dp =>
      let paths := img_paths fs dp
      let paths := if 0 < max_images then paths.take max_images.toNat else paths
      .ok (paths.map fs.read)
  else .error .assertionError

/-- Fuel-indexed worker for splitting a list into consecutive chunks of
size `B`; the fuel is the list length at the top-level call, which
suffices whenever `0 < B`. -/
def chunksGo {α : Type} (B : Nat) : Nat → List α → List (List α)
  | _, [] => []
  | 0, _ :: _ => []
  | fuel + 1, x :: xs => ((x :: xs).take B) :: chunksGo B fuel ((x :: xs).drop B)

/-- One pass over the data in consecutive batches of size `B`, the last
batch possibly shorter. -/
def chunks {α : Type} (B : Nat) (data : List α) : List (List α) :=
  chunksGo B data.length data

/-- `K` batches of exactly `B` elements drawn from the data cyclically:
the `j`-th element of batch `i` is the data element at cursor position
`(i * B + j) mod N`. -/
def cycled {α : Type} (data : List α) (B K : Nat) (d : α) : List (List α) :=
  (List.range K).map (fun i =>
    (List.range B).map (fun j => data.getD ((i * B + j) % data.length) d))

/-- Modelled from the spec: `utils.batcher`, whose source module
`utils.py` is not part of this repository snapshot.  Per the spec's
batching-iterator contract: with no iteration cap (`n_iterations = -1`,
the CLI default) it iterates exactly once over the data split into
consecutive batches of `batch_size`, the last possibly shorter; with a
cap it yields exactly that many batches of exactly `batch_size`
consecutive elements, wrapping around to the start of the sequence
(a cursor tracked modulo the input length). -/
def batcher {α : Type} (data : List α) (batch_size : Nat) (n_iterations : Int)
    (d : α) : List (List α) :=
  if n_iterations = -1 then chunks batch_size data
  else cycled data batch_size n_iterations.toNat d

/-- Numpy dtype tags the client uses. -/
inductive DType where
  | uint8
  | float32
  deriving DecidableEq, Repr

/-- A 3-dimensional numpy array (height, width, channels), with entries
modelled as exact rationals (the float32 arithmetic of the source
carries no claim about rounding). -/
structure NDArray3 where
  dim0 : Nat
  dim1 : Nat
  dim2 : Nat
  dtype : DType
  pix : Nat → Nat → Nat → ℚ

/-- `cv2.resize(img, (w, h))`: the result has `h` rows, `w` columns and
the source's channel count and dtype; the interpolation kernel of the
external library is modelled as nearest-neighbour sampling (the claims
depend only on the shape and on determinism, not on the kernel). -/
def cv2_resize (img : NDArray3) (w h : Nat) : NDArray3 :=
  { dim0 := h, dim1 := w, dim2 := img.dim2, dtype := img.dtype,
    pix := fun i j c => img.pix (i * img.dim0 / h) (j * img.dim1 / w) c }

/-- `img.astype(np.float32)`. -/
def np_astype_float32 (a : NDArray3) : NDArray3 :=
  { a with dtype := .float32 }

/-- The per-channel means `[0.485*255, 0.456*255, 0.406*255]` from
`preprocess_image`. -/
def norm_mean (c : Nat) : ℚ :=
  [(0.485 : ℚ) * 255, (0.456 : ℚ) * 255, (0.406 : ℚ) * 255].getD c 0

/-- The per-channel standard deviations `[0.229*255, 0.224*255,
0.225*255]` from `preprocess_image`. -/
def norm_std (c : Nat) : ℚ :=
  [(0.229 : ℚ) * 255, (0.224 : ℚ) * 255, (0.225 : ℚ) * 255].getD c 0

/-- `(img - mean) / std` with numpy broadcasting along the last axis. -/
def normalize (a : NDArray3) : NDArray3 :=
  { a with pix := fun i j c => (a.pix i j c - norm_mean c) / norm_std c }

/-- `preprocess_image` from `dali_grpc_client.py`: decode the buffer
with `cv2.imdecode(·, 1)` (the external decoder is a parameter; when it
fails, `cv2.imdecode` returns `None` and the subsequent `cv2.resize`
raises), resize to `(299, 299)`, cast to float32, normalize
per channel, and return the tensor together with the elapsed
wall-clock time `t1 - t0` (the two `time.perf_counter()` readings are
parameters of the model). -/
def preprocess_image (imdecode : List Nat → Option NDArray3)
    (encoded_image : List Nat) (t0 t1 : ℚ) : Except PyError (NDArray3 × ℚ) :=
  match imdecode encoded_image with
  | none => .error .cvError
  | some img0 =>
    let img1 := cv2_resize img0 299 299
    let img2 := np_astype_float32 img1
    .ok (normalize img2, t1 - t0)

/-- The resolved configuration produced by `parse_args`, with the
argparse defaults of the source.  `img = none` / `img_dir = none`
means the flag was not supplied. -/
structure Flags where
  verbose : Bool := false
  url : String := "localhost:8001"
  batch_size : Int := 1
  n_iter : Int := -1
  model_name : String := "dali_backend"
  input_name : String := "INPUT"
  output_name : String := "OUTPUT"
  preprocess : Bool := false
  statistics : Bool := false
  img : Option String := none
  img_dir : Option String := none

/-- `parse_args`: the only constraint argparse enforces beyond defaults
is the mutually exclusive group `--img` / `--img_dir`; supplying both
is a usage error (argparse exits with status 2 before `main` runs). -/
def parse_args (a : Flags) : Except Unit Flags :=
  if a.img.isSome ∧ a.img_dir.isSome then .error () else .ok a

/-- The abstract environment a run executes against: the filesystem,
whether constructing the `InferenceServerClient` succeeds, whether the
per-batch `infer` calls succeed, whether `cv2.imdecode` succeeds on the
loaded images, and `len(statistics.model_stats)` as reported by the
server for a given queried model name. -/
structure Env where
  fs : FS
  connect_ok : Bool
  infer_ok : Bool
  decode_ok : Bool
  model_stats_count : String → Nat

/-- Observable events of a run, in program order.  Per-sample
prediction printing and progress bars are presentational and elided. -/
inductive Event where
  | connect (url : String)
  | fs_access (p : String)
  | infer (model : String)
  | stats_query (model : String)
  | println (s : String)
  deriving DecidableEq, Repr

/-- How the process ends: `exited c` for `sys.exit` (status `c`, also
status 0 for falling off the end of `main`), `crashed e` for a Python
exception escaping `main` (process status 1). -/
inductive Outcome where
  | exited (code : Nat)
  | crashed (e : PyError)
  deriving DecidableEq, Repr

/-- The process exit status an `Outcome` produces. -/
def Outcome.exitStatus : Outcome → Nat
  | .exited c => c
  | .crashed _ => 1

/-- The image-source path `main` passes to `load_images`:
`FLAGS.img_dir if FLAGS.img_dir is not None else FLAGS.img`. -/
def mainImgPath (flags : Flags) : Option String :=
  match flags.img_dir with
  | some d => some d
  | none => flags.img

/-- The final stage of `main`: `get_inference_statistics` is called with
the hard-coded name `"dali"`; if the reported model count differs from
1, print `FAILED: Inference Statistics` and `sys.exit(1)`; otherwise
print the optional statistics / latency reports and the final
`PASS: infer` banner and return (process status 0). -/
def statsStage (flags : Flags) (env : Env) : List Event × Outcome :=
  if env.model_stats_count "dali" ≠ 1 then
    ([.stats_query "dali", .println "FAILED: Inference Statistics"], .exited 1)
  else
    ([Event.stats_query "dali"]
      ++ (if flags.statistics then [Event.println "statistics"] else [])
      ++ (if flags.preprocess then [Event.println "Latencies"] else [])
      ++ [Event.println "PASS: infer"], .exited 0)

/-- The inference loop followed by the statistics stage.  The loop
iterates over `utils.batcher(image_data, batch_size, n_iterations =
n_iter)`; when preprocessing is enabled and decoding fails, or when an
`infer` call raises, the exception escapes and the run crashes
(modelled coarsely: any nonempty loop crashes as a whole); otherwise
one `infer` request per batch is sent to the configured model. -/
def loopStage (flags : Flags) (env : Env) (stacked : List (List Nat)) :
    List Event × Outcome :=
  let batches := batcher stacked flags.batch_size.toNat flags.n_iter []
  if flags.preprocess ∧ env.decode_ok = false ∧ batches ≠ [] then
    ([], .crashed .cvError)
  else if env.infer_ok = false ∧ batches ≠ [] then
    ([], .crashed .networkError)
  else
    (batches.map (fun _ => Event.infer flags.model_name)
       ++ (statsStage flags env).1, (statsStage flags env).2)

/-- `main` from `dali_grpc_client.py`, as a trace of events plus an
outcome.  Constructing the client inside `try/except` falls into the
handler when the connection cannot be established, which prints a
message and calls `sys.exit()` — with no argument, hence process
status 0.  Then images are loaded (with the hard-coded cap of 15),
stacked with `array_from_list`, run through the inference loop, and
the statistics check concludes the run. -/
def main (flags : Flags) (env : Env) : List Event × Outcome :=
  if env.connect_ok = false then
    ([.connect flags.url, .println "channel creation failed"], .exited 0)
  else
    let pre := [Event.connect flags.url, Event.println "Loading images"]
    let fsEv : List Event := ((mainImgPath flags).map Event.fs_access).toList
    match load_images env.fs (mainImgPath flags) 15 with
    | .error e => (pre ++ fsEv, .crashed e)
    | .ok image_data =>
      match array_from_list image_data with
      | .error e => (pre ++ fsEv, .crashed e)
      | .ok stacked =>
        (pre ++ fsEv ++ [Event.println "Images loaded"]
           ++ (loopStage flags env stacked).1, (loopStage flags env stacked).2)

/-- A full invocation: argparse first (usage errors exit with status 2
before anything else runs — the trace is empty), then `main`. -/
def run (a : Flags) (env : Env) : List Event × Outcome :=
  match parse_args a with
  | .error _ => ([], .exited 2)
  | .ok flags => main flags env

/-! ## Concrete fixtures used as witnesses -/

/-- The all-default configuration (no CLI flags supplied). -/
def flags_default : Flags := {}

/-- A configuration supplying only `--img f`. -/
def flags_img_f : Flags := { img := some "f" }

/-- A configuration supplying only `--img_dir d`. -/
def flags_dir_d : Flags := { img_dir := some "d" }

/-- A configuration supplying both `--img` and `--img_dir`. -/
def flags_both : Flags := { img := some "a", img_dir := some "b" }

/-- A filesystem on which every path is a regular file with two bytes. -/
def fs_demo : FS :=
  { listdir := fun _ => [], isfile := fun _ => true, read := fun _ => [1, 2] }

/-- A filesystem where the directory `d` holds 20 regular one-byte
files. -/
def fs_many : FS :=
  { listdir := fun _ => (List.range 20).map toString,
    isfile := fun s => s != "d", read := fun _ => [7] }

/-- A healthy environment: connection up, inference succeeding, the
server reporting statistics for exactly one model. -/
def env_demo : Env :=
  { fs := fs_demo, connect_ok := true, infer_ok := true, decode_ok := true,
    model_stats_count := fun _ => 1 }

/-- Like `env_demo`, but the statistics snapshot reports zero models. -/
def env_stats_zero : Env := { env_demo with model_stats_count := fun _ => 0 }

/-- Like `env_demo`, but establishing the client connection fails. -/
def env_connfail : Env := { env_demo with connect_ok := false }

/-- Like `env_demo`, over the 20-file directory filesystem. -/
def env_many : Env := { env_demo with fs := fs_many }

/-- A concrete 5×7×3 uint8 image, as returned by a decoder. -/
def demo_decoded : NDArray3 :=
  { dim0 := 5, dim1 := 7, dim2 := 3, dtype := .uint8, pix := fun _ _ _ => 1 }

/-- A decoder that decodes every buffer to `demo_decoded`. -/
def demo_decode : List Nat → Option NDArray3 := fun _ => some demo_decoded

/-! ## Helper lemmas -/

theorem lengths_map_eq (l : List (List Nat)) :
    (List.range l.length).map (fun x => (l.getD x []).length) = l.map List.length := by
  induction l with
  | nil => rfl
  | cons a t ih =>
    have hc : (fun x => ((a :: t).getD x []).length) ∘ Nat.succ
        = fun x => (t.getD x []).length := by
      funext x
      simp [List.getD_cons_succ]
    simp only [List.length_cons, List.range_succ_eq_map, List.map_cons, List.map_map, hc,
      List.getD_cons_zero, ih]

theorem le_foldl_max (xs : List Nat) : ∀ x : Nat, ∀ y ∈ x :: xs, y ≤ xs.foldl max x := by
  induction xs with
  | nil =>
    intro x y hy
    simp only [List.mem_singleton] at hy
    simp [hy]
  | cons z zs ih =>
    intro x y hy
    simp only [List.foldl_cons]
    have hbase : max x z ≤ zs.foldl max (max x z) :=
      ih (max x z) (max x z) (List.mem_cons_self _ _)
    rcases List.mem_cons.mp hy with h1 | h1
    · subst h1
      exact Nat.le_trans (Nat.le_max_left y z) hbase
    · rcases List.mem_cons.mp h1 with h2 | h2
      · subst h2
        exact Nat.le_trans (Nat.le_max_right x y) hbase
      · exact ih (max x z) y (List.mem_cons_of_mem _ h2)

theorem foldl_max_mem (xs : List Nat) : ∀ x : Nat, xs.foldl max x ∈ x :: xs := by
  induction xs with
  | nil =>
    intro x
    simp
  | cons z zs ih =>
    intro x
    simp only [List.foldl_cons]
    rcases List.mem_cons.mp (ih (max x z)) with h1 | h1
    · rcases max_choice x z with hc | hc
      · exact List.mem_cons.mpr (Or.inl (by rw [h1, hc]))
      · exact List.mem_cons.mpr (Or.inr (List.mem_cons.mpr (Or.inl (by rw [h1, hc]))))
    · exact List.mem_cons.mpr (Or.inr (List.mem_cons.mpr (Or.inr h1)))

theorem np_pad_length_of_le (a : List Nat) (ml : Nat) (h : a.length ≤ ml) :
    (np_pad a ml).length = ml := by
  simp only [np_pad, List.length_append, List.length_replicate]
  omega

theorem getD_map_lt {α β : Type} (f : α → β) (l : List α) (i : Nat)
    (h : i < l.length) (d : β) (d' : α) : (l.map f).getD i d = f (l.getD i d') := by
  rw [List.getD_eq_getElem _ _ (by simpa using h), List.getD_eq_getElem _ _ h,
    List.getElem_map]

/-- When every row length is bounded by `m` and the list is non-empty,
the equal-shape assertion passes and `stack_padded` returns the padded
rows. -/
theorem stack_padded_ok (arrays : List (List Nat)) (m : Nat) (hne : arrays ≠ [])
    (h : ∀ b ∈ arrays, b.length ≤ m) :
    stack_padded arrays m = .ok (arrays.map (fun arr => np_pad arr m)) := by
  have hall : ∀ arr ∈ arrays.map (fun arr => np_pad arr m), arr.length = m := by
    intro arr harr
    rcases List.mem_map.mp harr with ⟨b, hb, rfl⟩
    exact np_pad_length_of_le _ _ (h b hb)
  have hhead : ((arrays.map (fun arr => np_pad arr m)).headD []).length = m := by
    cases arrays with
    | nil => exact absurd rfl hne
    | cons a t =>
      simp only [List.map_cons, List.headD_cons]
      exact hall _ (by simp)
  have hc : (arrays.map (fun arr => np_pad arr m)).all
      (fun arr => arr.length == ((arrays.map (fun arr => np_pad arr m)).headD []).length)
      = true := by
    rw [List.all_eq_true]
    intro arr harr
    simp only [beq_iff_eq]
    rw [hall arr harr, hhead]
  simp only [stack_padded, hc, if_true]

/-- On a non-empty list, `array_from_list` succeeds and returns every
row padded to the maximum row length; the maximum is an upper bound and
is attained. -/
theorem array_from_list_eq (a : List Nat) (t : List (List Nat)) :
    ∃ m, list_max ((a :: t).map List.length) = some m
      ∧ array_from_list (a :: t) = .ok ((a :: t).map (fun arr => np_pad arr m))
      ∧ (∀ b ∈ a :: t, b.length ≤ m) ∧ (∃ b ∈ a :: t, b.length = m) := by
  have hle : ∀ b ∈ a :: t, b.length ≤ (t.map List.length).foldl max a.length := by
    intro b hb
    exact le_foldl_max (t.map List.length) a.length b.length
      (by simpa using List.mem_map_of_mem List.length hb)
  refine ⟨(t.map List.length).foldl max a.length, rfl, ?_, hle, ?_⟩
  · have hsc : list_max ((List.range (a :: t).length).map
        (fun x => ((a :: t).getD x []).length))
        = some ((t.map List.length).foldl max a.length) := by
      rw [lengths_map_eq]
      rfl
    unfold array_from_list
    rw [hsc]
    exact stack_padded_ok (a :: t) _ (by simp) hle
  · have hm : (t.map List.length).foldl max a.length ∈ (a :: t).map List.length := by
      simpa using foldl_max_mem (t.map List.length) a.length
    rcases List.mem_map.mp hm with ⟨b, hb, hbe⟩
    exact ⟨b, hb, hbe⟩

theorem chunksGo_nil {α : Type} (B fuel : Nat) : chunksGo B fuel ([] : List α) = [] := by
  cases fuel <;> rfl

theorem chunksGo_cons {α : Type} (B n : Nat) (a : α) (t : List α) :
    chunksGo B (n + 1) (a :: t)
      = ((a :: t).take B) :: chunksGo B n ((a :: t).drop B) := rfl

theorem chunksGo_flatten {α : Type} (B : Nat) (hB : 0 < B) :
    ∀ (fuel : Nat) (data : List α), data.length ≤ fuel →
      (chunksGo B fuel data).flatten = data := by
  intro fuel
  induction fuel with
  | zero =>
    intro data h
    cases data with
    | nil => rfl
    | cons a t => simp at h
  | succ n ih =>
    intro data h
    cases data with
    | nil => rfl
    | cons a t =>
      simp only [List.length_cons] at h
      have hd : ((a :: t).drop B).length ≤ n := by
        simp only [List.length_drop, List.length_cons]
        omega
      rw [chunksGo_cons, List.flatten_cons, ih _ hd, List.take_append_drop]

theorem ceil_div_step (N B : Nat) (hB : 0 < B) (hN : 0 < N) :
    (N + B - 1) / B = (N - B + B - 1) / B + 1 := by
  rcases le_or_lt N B with hc | hc
  · have h1 : N - B = 0 := by omega
    have h2 : N + B - 1 = (N - 1) + B := by omega
    rw [h1, h2, Nat.add_div_right _ hB, Nat.div_eq_of_lt (by omega),
      Nat.div_eq_of_lt (by omega)]
  · have h2 : N + B - 1 = (N - 1) + B := by omega
    have h3 : N - B + B - 1 = N - 1 := by omega
    rw [h2, h3, Nat.add_div_right _ hB]

theorem chunksGo_length {α : Type} (B : Nat) (hB : 0 < B) :
    ∀ (fuel : Nat) (data : List α), data.length ≤ fuel →
      (chunksGo B fuel data).length = (data.length + B - 1) / B := by
  intro fuel
  induction fuel with
  | zero =>
    intro data h
    cases data with
    | nil => simp [chunksGo_nil, Nat.div_eq_of_lt (show B - 1 < B by omega)]
    | cons a t => simp at h
  | succ n ih =>
    intro data h
    cases data with
    | nil => simp [chunksGo_nil, Nat.div_eq_of_lt (show B - 1 < B by omega)]
    | cons a t =>
      simp only [List.length_cons] at h
      have hd : ((a :: t).drop B).length ≤ n := by
        simp only [List.length_drop, List.length_cons]
        omega
      rw [chunksGo_cons, List.length_cons, ih _ hd, List.length_drop]
      conv_rhs => rw [ceil_div_step ((a :: t).length) B hB
        (by simp only [List.length_cons]; omega)]

theorem chunksGo_batch_le {α : Type} (B : Nat) :
    ∀ (fuel : Nat) (data : List α), ∀ b ∈ chunksGo B fuel data, b.length ≤ B := by
  intro fuel
  induction fuel with
  | zero =>
    intro data b hb
    cases data with
    | nil => simp [chunksGo_nil] at hb
    | cons a t => exact absurd hb (List.not_mem_nil b)
  | succ n ih =>
    intro data b hb
    cases data with
    | nil => simp [chunksGo_nil] at hb
    | cons a t =>
      rw [chunksGo_cons] at hb
      rcases List.mem_cons.mp hb with h1 | h1
      · subst h1
        simp only [List.length_take]
        omega
      · exact ih _ b h1

theorem chunksGo_batch_eq {α : Type} (B : Nat) (hB : 0 < B) :
    ∀ (fuel : Nat) (data : List α), data.length ≤ fuel →
      ∀ i, i + 1 < (chunksGo B fuel data).length →
        ((chunksGo B fuel data).getD i []).length = B := by
  intro fuel
  induction fuel with
  | zero =>
    intro data h i hi
    cases data with
    | nil => simp [chunksGo_nil] at hi
    | cons a t => simp at h
  | succ n ih =>
    intro data h i hi
    cases data with
    | nil => simp [chunksGo_nil] at hi
    | cons a t =>
      simp only [List.length_cons] at h
      rw [chunksGo_cons] at hi ⊢
      simp only [List.length_cons] at hi
      cases i with
      | zero =>
        have hrest : chunksGo B n ((a :: t).drop B) ≠ [] := by
          intro hz
          rw [hz] at hi
          simp at hi
        have hlen : B < (a :: t).length := by
          by_contra hcon
          have hdropnil : (a :: t).drop B = [] := List.drop_eq_nil_iff.mpr (by omega)
          exact hrest (by rw [hdropnil]; exact chunksGo_nil B n)
        simp only [List.length_cons] at hlen
        simp only [List.getD_cons_zero, List.length_take, List.length_cons]
        omega
      | succ j =>
        simp only [List.getD_cons_succ]
        refine ih _ ?_ j (by omega)
        simp only [List.length_drop, List.length_cons]
        omega

theorem getD_range_map {β : Type} (f : Nat → β) (n i : Nat) (h : i < n) (d : β) :
    ((List.range n).map f).getD i d = f i := by
  rw [getD_map_lt f (List.range n) i (by simpa using h) d 0,
    List.getD_eq_getElem _ _ (by simpa using h), List.getElem_range]

theorem stats_query_not_mem_ite_println (name s : String) (b : Prop) [Decidable b] :
    (Event.stats_query name ∈ (if b then [Event.println s] else [])) = False := by
  by_cases hb : b <;> simp [hb]

/-- Any statistics query a run performs is for the hard-coded model
name `"dali"`; moreover, when the run reaches the statistics fetch and
the reported model count differs from 1, the run prints the `FAILED`
banner and exits with status 1. -/
theorem main_reaches_stats (flags : Flags) (env : Env) (name : String)
    (hmem : Event.stats_query name ∈ (main flags env).1) :
    name = "dali"
    ∧ (env.model_stats_count "dali" ≠ 1 →
        (main flags env).2 = .exited 1
        ∧ Event.println "FAILED: Inference Statistics" ∈ (main flags env).1) := by
  by_cases hc : env.connect_ok = false
  · exfalso
    simp [main, hc] at hmem
  · rcases hload : load_images env.fs (mainImgPath flags) 15 with e | image_data
    · exfalso
      simp [main, hc, hload] at hmem
    · rcases hstack : array_from_list image_data with e | stacked
      · exfalso
        simp [main, hc, hload, hstack] at hmem
      · constructor
        · by_cases hbat : batcher stacked flags.batch_size.toNat flags.n_iter [] = [] <;>
            cases hprep : flags.preprocess <;> cases hdec : env.decode_ok <;>
            cases hinf : env.infer_ok <;>
            by_cases h3 : env.model_stats_count "dali" = 1 <;>
            simp [main, loopStage, statsStage, hc, hload, hstack, hbat, hprep, hdec,
              hinf, h3, stats_query_not_mem_ite_println] at hmem <;>
            exact hmem
        · intro hcount
          by_cases hbat : batcher stacked flags.batch_size.toNat flags.n_iter [] = [] <;>
            cases hprep : flags.preprocess <;> cases hdec : env.decode_ok <;>
            cases hinf : env.infer_ok <;>
            first
              | (exfalso
                 simp [main, loopStage, statsStage, hc, hload, hstack, hbat, hprep,
                   hdec, hinf, hcount] at hmem
                 done)
              | simp [main, loopStage, statsStage, hc, hload, hstack, hbat, hprep,
                  hdec, hinf, hcount]

/-! ## Claims -/

/-- C1: on every non-empty list of 1-D byte buffers, `array_from_list`
returns a 2-D tensor with one row per input, every row padded to the
maximum input length (an attained upper bound of the row lengths), each
row being the original content followed by zeros; a singleton list is
covered by the same statement (degenerate stacking). -/
theorem claim_C1 (arrays : List (List Nat)) (h : arrays ≠ []) :
    ∃ out m, array_from_list arrays = .ok out
      ∧ list_max (arrays.map List.length) = some m
      ∧ (∀ a ∈ arrays, a.length ≤ m) ∧ (∃ a ∈ arrays, a.length = m)
      ∧ out.length = arrays.length
      ∧ ∀ i, i < arrays.length →
          out.getD i [] = arrays.getD i []
              ++ List.replicate (m - (arrays.getD i []).length) 0
            ∧ (out.getD i []).length = m := by
  obtain ⟨a, t, rfl⟩ : ∃ a t, arrays = a :: t := by
    cases arrays with
    | nil => exact absurd rfl h
    | cons a t => exact ⟨a, t, rfl⟩
  obtain ⟨m, hmax, hok, hle, hmem⟩ := array_from_list_eq a t
  refine ⟨_, m, hok, hmax, hle, hmem, by simp, ?_⟩
  intro i hi
  have hrow : ((a :: t).map (fun arr => np_pad arr m)).getD i []
      = np_pad ((a :: t).getD i []) m := getD_map_lt _ _ _ hi _ _
  have hmemi : (a :: t).getD i [] ∈ a :: t := by
    rw [List.getD_eq_getElem _ _ hi]
    exact List.getElem_mem hi
  exact ⟨hrow, by rw [hrow]; exact np_pad_length_of_le _ _ (hle _ hmemi)⟩

/-- C1 witness: the theorem applied to the singleton list `[[5, 6]]`
(the degenerate-stacking edge case). -/
theorem claim_C1_witness :
    ([[5, 6]] : List (List Nat)) ≠ []
    ∧ ∃ out m, array_from_list [[5, 6]] = .ok out
        ∧ list_max ([[5, 6]].map List.length) = some m
        ∧ (∀ a ∈ [[5, 6]], a.length ≤ m) ∧ (∃ a ∈ [[5, 6]], a.length = m)
        ∧ out.length = [[5, 6]].length
        ∧ ∀ i, i < [[5, 6]].length →
            out.getD i [] = [[5, 6]].getD i []
                ++ List.replicate (m - ([[5, 6]].getD i []).length) 0
              ∧ (out.getD i []).length = m :=
  ⟨by decide, claim_C1 [[5, 6]] (by decide)⟩

/-- C5: with no iteration cap (`n_iterations = -1`) the batching
iterator yields exactly `ceil(N / B)` batches whose concatenation is
the data (every image exactly once, in order), every batch has at most
`B` elements and every batch except possibly the last has exactly `B`;
with a cap `K` it yields exactly `K` batches of exactly `B` elements,
the `j`-th element of batch `i` being the data element at cursor
position `(i * B + j) mod N` (cycling past the end of the data). -/
theorem claim_C5 (data : List (List Nat)) (B K : Nat) (hB : 0 < B) :
    ((batcher data B (-1) []).flatten = data
      ∧ (batcher data B (-1) []).length = (data.length + B - 1) / B
      ∧ (∀ b ∈ batcher data B (-1) [], b.length ≤ B)
      ∧ (∀ i, i + 1 < (batcher data B (-1) []).length →
          ((batcher data B (-1) []).getD i []).length = B))
    ∧ ((batcher data B (K : Int) []).length = K
      ∧ (∀ i, i < K → ((batcher data B (K : Int) []).getD i []).length = B)
      ∧ ∀ i j, i < K → j < B →
          ((batcher data B (K : Int) []).getD i []).getD j []
            = data.getD ((i * B + j) % data.length) []) := by
  have hneg : batcher data B (-1) ([] : List Nat) = chunksGo B data.length data := by
    simp [batcher, chunks]
  have hK : ¬((K : Int) = -1) := by omega
  have hcap : batcher data B (K : Int) ([] : List Nat) = cycled data B K [] := by
    simp [batcher, hK, Int.toNat_natCast]
  refine ⟨⟨?_, ?_, ?_, ?_⟩, ?_, ?_, ?_⟩
  · rw [hneg]
    exact chunksGo_flatten B hB data.length data le_rfl
  · rw [hneg]
    exact chunksGo_length B hB data.length data le_rfl
  · rw [hneg]
    exact chunksGo_batch_le B data.length data
  · rw [hneg]
    exact chunksGo_batch_eq B hB data.length data le_rfl
  · rw [hcap]
    simp [cycled]
  · intro i hi
    rw [hcap, cycled, getD_range_map _ _ _ hi]
    simp
  · intro i j hi hj
    rw [hcap, cycled, getD_range_map _ _ _ hi, getD_range_map _ _ _ hj]

/-- C5 witness: the theorem applied to three one-element rows with
batch size 2 and cap 4. -/
theorem claim_C5_witness :
    (0 : Nat) < 2
    ∧ (((batcher [[1], [2], [3]] 2 (-1) []).flatten = ([[1], [2], [3]] : List (List Nat))
        ∧ (batcher [[1], [2], [3]] 2 (-1) []).length
            = (([[1], [2], [3]] : List (List Nat)).length + 2 - 1) / 2
        ∧ (∀ b ∈ batcher [[1], [2], [3]] 2 (-1) [], b.length ≤ 2)
        ∧ (∀ i, i + 1 < (batcher [[1], [2], [3]] 2 (-1) []).length →
            ((batcher [[1], [2], [3]] 2 (-1) []).getD i []).length = 2))
      ∧ ((batcher [[1], [2], [3]] 2 ((4 : Nat) : Int) []).length = 4
        ∧ (∀ i, i < 4 →
            ((batcher [[1], [2], [3]] 2 ((4 : Nat) : Int) []).getD i []).length = 2)
        ∧ ∀ i j, i < 4 → j < 2 →
            ((batcher [[1], [2], [3]] 2 ((4 : Nat) : Int) []).getD i []).getD j []
              = ([[1], [2], [3]] : List (List Nat)).getD
                  ((i * 2 + j) % ([[1], [2], [3]] : List (List Nat)).length) [])) :=
  ⟨by decide, claim_C5 [[1], [2], [3]] 2 4 (by decide)⟩

/-- C10: `array_from_list` raises `ValueError` on the empty list
(`max()` of an empty sequence), returns normally on every non-empty
list of 1-D arrays, and its internal equal-shape assertion never
fires on any input. -/
theorem claim_C10 :
    array_from_list ([] : List (List Nat)) = .error .valueError
    ∧ (∀ arrays : List (List Nat), arrays ≠ [] →
        ∃ out, array_from_list arrays = .ok out)
    ∧ ∀ arrays : List (List Nat), array_from_list arrays ≠ .error .assertionError := by
  refine ⟨rfl, ?_, ?_⟩
  · intro arrays h
    obtain ⟨a, t, rfl⟩ : ∃ a t, arrays = a :: t := by
      cases arrays with
      | nil => exact absurd rfl h
      | cons a t => exact ⟨a, t, rfl⟩
    obtain ⟨m, _, hok, _, _⟩ := array_from_list_eq a t
    exact ⟨_, hok⟩
  · intro arrays
    cases arrays with
    | nil => simp [array_from_list, list_max]
    | cons a t =>
      obtain ⟨m, _, hok, _, _⟩ := array_from_list_eq a t
      simp [hok]

/-- C10 witness: the empty list raises `ValueError`; the concrete
non-empty list `[[1], [2, 3]]` returns normally; the assertion does not
fire on `[[9]]`. -/
theorem claim_C10_witness :
    array_from_list ([] : List (List Nat)) = .error .valueError
    ∧ ([[1], [2, 3]] : List (List Nat)) ≠ []
    ∧ (∃ out, array_from_list [[1], [2, 3]] = .ok out)
    ∧ array_from_list [[9]] ≠ .error .assertionError :=
  ⟨claim_C10.1, by decide, claim_C10.2.1 [[1], [2, 3]] (by decide),
    claim_C10.2.2 [[9]]⟩

/-- C2: the claim says a failed connection terminates the process with
a non-zero exit code.  The code's `except` handler prints the message
and then calls `sys.exit()` with no argument, which terminates the
process with exit status 0: evaluated on a concrete run whose client
construction fails, the outcome is `exited 0`. -/
theorem claim_C2_exit_status :
    main flags_default env_connfail
      = ([.connect "localhost:8001", .println "channel creation failed"], .exited 0)
    ∧ Outcome.exitStatus (main flags_default env_connfail).2 = 0 :=
  ⟨rfl, rfl⟩

/-- C3: every run that reaches the statistics fetch (a statistics query
appears in its trace) and whose snapshot reports a model count other
than 1 exits with status 1 after printing the FAILED banner; in
particular it does not end in a crash (`Outcome.crashed`). -/
theorem claim_C3 (flags : Flags) (env : Env)
    (hreach : Event.stats_query "dali" ∈ (main flags env).1)
    (hcount : env.model_stats_count "dali" ≠ 1) :
    (main flags env).2 = .exited 1
    ∧ Event.println "FAILED: Inference Statistics" ∈ (main flags env).1 :=
  (main_reaches_stats flags env "dali" hreach).2 hcount

/-- C3 witness: a concrete run (one image via `--img`, healthy
connection) against a server reporting zero models. -/
theorem claim_C3_witness :
    Event.stats_query "dali" ∈ (main flags_img_f env_stats_zero).1
    ∧ env_stats_zero.model_stats_count "dali" ≠ 1
    ∧ ((main flags_img_f env_stats_zero).2 = .exited 1
      ∧ Event.println "FAILED: Inference Statistics"
          ∈ (main flags_img_f env_stats_zero).1) :=
  ⟨by decide, by decide,
    claim_C3 flags_img_f env_stats_zero (by decide) (by decide)⟩

/-- C4 counterexample: with the default configuration's model name
`dali_backend` (used for inference), the run's statistics query is for
`"dali"`, not for the configured name — the claim that the snapshot is
fetched for the configured `-m` value fails. -/
theorem claim_C4_counterexample :
    flags_img_f.model_name = "dali_backend"
    ∧ Event.stats_query "dali" ∈ (main flags_img_f env_demo).1
    ∧ Event.stats_query flags_img_f.model_name ∉ (main flags_img_f env_demo).1 :=
  ⟨rfl, by decide, by decide⟩

/-- C4 amended: after the inference loop the statistics snapshot is
always fetched for the hard-coded model name `"dali"`, whatever model
name the run was configured with. -/
theorem claim_C4 (flags : Flags) (env : Env) (name : String)
    (h : Event.stats_query name ∈ (main flags env).1) : name = "dali" :=
  (main_reaches_stats flags env name h).1

/-- C4 witness: the amended theorem applied to a concrete completed
run. -/
theorem claim_C4_witness :
    Event.stats_query "dali" ∈ (main flags_img_f env_demo).1 ∧ "dali" = "dali" :=
  ⟨by decide, claim_C4 flags_img_f env_demo "dali" (by decide)⟩

/-- C6: when both `--img` and `--img_dir` are supplied, argparse's
mutually exclusive group rejects the invocation: the run terminates
with the usage-error status 2 and an empty event trace — no connection
is attempted and no filesystem path is accessed. -/
theorem claim_C6 (a : Flags) (env : Env) (h1 : a.img.isSome = true)
    (h2 : a.img_dir.isSome = true) :
    run a env = ([], .exited 2) := by
  have hp : parse_args a = .error () := by
    simp only [parse_args]
    rw [if_pos ⟨h1, h2⟩]
  simp [run, hp]

/-- C6 witness: the concrete invocation `--img a --img_dir b`. -/
theorem claim_C6_witness :
    flags_both.img.isSome = true ∧ flags_both.img_dir.isSome = true
    ∧ run flags_both env_demo = ([], .exited 2) :=
  ⟨rfl, rfl, claim_C6 flags_both env_demo rfl rfl⟩

/-- C7 counterexample: with neither `--img` nor `--img_dir` supplied
(the default configuration) and a healthy connection, the run does not
proceed from a default image source — it crashes with `TypeError`
(`os.path.isfile(None)`), a non-zero process exit. -/
theorem claim_C7_counterexample :
    flags_default.img = none ∧ flags_default.img_dir = none
    ∧ (run flags_default env_demo).2 = .crashed .typeError
    ∧ Outcome.exitStatus (run flags_default env_demo).2 ≠ 0 :=
  ⟨rfl, rfl, rfl, by decide⟩

/-- C7 amended: when neither image flag is supplied, configuration
resolution itself succeeds (both default to `None`, no usage error),
and every such run with a working connection then fails during image
acquisition with a `TypeError` rather than proceeding from a default
image source. -/
theorem claim_C7 (a : Flags) (env : Env) (h1 : a.img = none)
    (h2 : a.img_dir = none) (hconn : env.connect_ok = true) :
    parse_args a = .ok a ∧ (main a env).2 = .crashed .typeError := by
  constructor
  · simp [parse_args, h1]
  · have hp : mainImgPath a = none := by
      simp [mainImgPath, h1, h2]
    have hload : load_images env.fs (mainImgPath a) 15 = .error .typeError := by
      rw [hp]
      rfl
    simp [main, hconn, hload]

/-- C7 witness: the amended theorem applied to the default
configuration in a healthy environment. -/
theorem claim_C7_witness :
    flags_default.img = none ∧ flags_default.img_dir = none
    ∧ env_demo.connect_ok = true
    ∧ (parse_args flags_default = .ok flags_default
      ∧ (main flags_default env_demo).2 = .crashed .typeError) :=
  ⟨rfl, rfl, rfl, claim_C7 flags_default env_demo rfl rfl rfl⟩

/-- C8: for every decodable encoded input (the external decoder, a
model parameter, returns a 3-channel image as `cv2.imdecode(·, 1)`
does), `preprocess_image` returns a 299×299×3 float32 tensor, and the
tensor does not depend on the two wall-clock readings: repeating the
preprocessing on the same input yields the identical tensor. -/
theorem claim_C8 (imdecode : List Nat → Option NDArray3) (buf : List Nat)
    (img : NDArray3) (t0 t1 : ℚ) (h : imdecode buf = some img)
    (h3 : img.dim2 = 3) :
    ∃ out lat, preprocess_image imdecode buf t0 t1 = .ok (out, lat)
      ∧ out.dim0 = 299 ∧ out.dim1 = 299 ∧ out.dim2 = 3 ∧ out.dtype = .float32
      ∧ ∀ s0 s1 : ℚ, ∃ lat2,
          preprocess_image imdecode buf s0 s1 = .ok (out, lat2) := by
  refine ⟨normalize (np_astype_float32 (cv2_resize img 299 299)), t1 - t0,
    ?_, rfl, rfl, h3, rfl, ?_⟩
  · simp [preprocess_image, h]
  · intro s0 s1
    exact ⟨s1 - s0, by simp [preprocess_image, h]⟩

/-- C8 witness: a concrete decoder mapping every buffer to a 5×7×3
uint8 image. -/
theorem claim_C8_witness :
    demo_decode [0] = some demo_decoded ∧ demo_decoded.dim2 = 3
    ∧ ∃ out lat, preprocess_image demo_decode [0] 0 1 = .ok (out, lat)
      ∧ out.dim0 = 299 ∧ out.dim1 = 299 ∧ out.dim2 = 3 ∧ out.dtype = .float32
      ∧ ∀ s0 s1 : ℚ, ∃ lat2,
          preprocess_image demo_decode [0] s0 s1 = .ok (out, lat2) :=
  ⟨rfl, rfl, claim_C8 demo_decode [0] demo_decoded 0 1 rfl rfl⟩

/-- C9: `main` invokes `load_images` with the hard-coded cap 15, so
whenever that call succeeds the run works on at most 15 images, and the
images are exactly the reads of the first 15 entries of the resolved
path list. -/
theorem claim_C9 (flags : Flags) (env : Env) (imgs : List (List Nat))
    (h : load_images env.fs (mainImgPath flags) 15 = .ok imgs) :
    imgs.length ≤ 15
    ∧ ∃ dp, mainImgPath flags = some dp
        ∧ imgs = ((img_paths env.fs dp).take 15).map env.fs.read := by
  rcases hp : mainImgPath flags with _ | dp
  · rw [hp] at h
    simp [load_images] at h
  · rw [hp] at h
    have h' : Except.ok (((img_paths env.fs dp).take 15).map env.fs.read)
        = Except.ok imgs := h
    have hv : imgs = ((img_paths env.fs dp).take 15).map env.fs.read :=
      (Except.ok.inj h').symm
    refine ⟨?_, dp, rfl, hv⟩
    rw [hv]
    simp only [List.length_map, List.length_take]
    omega

/-- C9 witness: a directory of 20 one-byte files loads as exactly the
first 15. -/
theorem claim_C9_witness :
    load_images env_many.fs (mainImgPath flags_dir_d) 15
        = .ok (List.replicate 15 [7])
    ∧ ((List.replicate 15 ([7] : List Nat)).length ≤ 15
      ∧ ∃ dp, mainImgPath flags_dir_d = some dp
          ∧ List.replicate 15 ([7] : List Nat)
              = ((img_paths env_many.fs dp).take 15).map env_many.fs.read) :=
  ⟨rfl,
    claim_C9 flags_dir_d env_many (List.replicate 15 [7]) rfl⟩

end DaliClient
